import Mathlib

/-!
Verification of the image_tiles normalization / rendering / path handling code.

Pixel values are modeled as exact rationals (the source computes with IEEE
floats; all claims below are about structural or exact-arithmetic behavior).
Arrays are modeled in row-major flat form: a shape together with the flat
data list, mirroring the numpy memory layout.
-/

namespace ImageTiles

/-- The numpy dtypes the repository distinguishes
(`np.float32`, `np.uint8` in `standard_normalization`; float64 is the result
of python-float arithmetic on integer arrays). -/
inductive DType where
  | uint8
  | int64
  | float32
  | float64
deriving DecidableEq

/-- A numpy ndarray: shape plus row-major flat data.
Well-formedness (`data.length = shape.prod`) is carried as a hypothesis where
a proof needs it. -/
structure NDArray where
  shape : List ℕ
  dtype : DType
  data : List ℚ
deriving DecidableEq

/-- Well-formed array: the flat data has exactly as many entries as the shape
describes. Every actual numpy array satisfies this. -/
def WF (a : NDArray) : Prop := a.data.length = a.shape.prod

instance (a : NDArray) : Decidable (WF a) := by unfold WF; infer_instance

/-- Row-major construction of a flat data list of length `n` from an index
function, as numpy materializes the result of a gather / elementwise kernel. -/
def mkData (n : ℕ) (f : ℕ → ℚ) : List ℚ := (List.range n).map f

/-- Model of `np.expand_dims(image, 0)`: prepend a batch axis of size 1; row-major
data is unchanged. -/
def expandDims0 (a : NDArray) : NDArray := ⟨1 :: a.shape, a.dtype, a.data⟩

/-- Model of `np.squeeze(image)`: remove every axis of size 1 (not only a leading batch
axis); row-major data is unchanged. -/
def squeeze (a : NDArray) : NDArray :=
  ⟨a.shape.filter (fun d => d ≠ 1), a.dtype, a.data⟩

/-- Dropping the leading size-1 batch axis (and nothing else): what the spec
describes as "removing the synthetic batch axis". -/
def removeBatch (a : NDArray) : NDArray :=
  match a.shape with
  | d :: s => if d = 1 then ⟨s, a.dtype, a.data⟩ else a
  | [] => a

/-- Model of `np.einsum("bwhc->bcwh", image)`: move the last axis to position 1.
Defined for rank-4 arrays (numpy raises on any other rank; the fallback
branch is unreachable in every use below). -/
def einsum_bwhc_bcwh (a : NDArray) : NDArray :=
  match a.shape with
  | [b, w, h, c] =>
    ⟨[b, c, w, h], a.dtype,
      mkData (b * c * w * h) (fun n =>
        let j3 := n % h
        let j2 := n / h % w
        let j1 := n / h / w % c
        let j0 := n / h / w / c
        a.data.getD (((j0 * w + j2) * h + j3) * c + j1) 0)⟩
  | _ => a

/-- Model of `np.einsum("bcwh->bwhc", image)`: move axis 1 to the last position.
Defined for rank-4 arrays (numpy raises on any other rank; the fallback
branch is unreachable in every use below). -/
def einsum_bcwh_bwhc (a : NDArray) : NDArray :=
  match a.shape with
  | [b, c, w, h] =>
    ⟨[b, w, h, c], a.dtype,
      mkData (b * w * h * c) (fun n =>
        let j3 := n % c
        let j2 := n / c % h
        let j1 := n / c / h % w
        let j0 := n / c / h / w
        a.data.getD (((j0 * c + j3) * w + j1) * h + j2) 0)⟩
  | _ => a

/-- Scalar `.astype(np.uint8)` on a float value: truncate toward zero, then
wrap modulo 256 (C-style float-to-unsigned conversion). -/
def astypeUint8 (q : ℚ) : ℚ := (((if 0 ≤ q then ⌊q⌋ else ⌈q⌉) % 256 : ℤ) : ℚ)

/-- Model of `np.max` / `np.nanmax` over a whole (rational-valued) block. -/
def npMax : List ℚ → ℚ
  | [] => 0
  | x :: xs => xs.foldl max x

/-- Model of `np.min` / `np.nanmin` over a whole (rational-valued) block. -/
def npMin : List ℚ → ℚ
  | [] => 0
  | x :: xs => xs.foldl min x

/-- The `batch_operation` argument of `_format_array`
("expand" / "squeeze" / None). -/
inductive BatchOp where
  | expand
  | squeezeAll
  | noOp
deriving DecidableEq

/-- The `channel_operation` argument of `_format_array`
("to_first" / "to_last" / None). -/
inductive ChannelOp where
  | toFirst
  | toLast
  | noOp
deriving DecidableEq

/-- The `channels` / `image_channel_format` literal ("last" / "first"). -/
inductive Channels where
  | last
  | first
deriving DecidableEq

/-- Function `_format_array` from normalization.py: optionally prepend a batch axis,
optionally permute the channel axis, optionally squeeze. -/
def format_array (image : NDArray) (batch_operation : BatchOp)
    (channel_operation : ChannelOp) : NDArray :=
  let image1 :=
    match batch_operation with
    | BatchOp.expand => expandDims0 image
    | _ => image
  let image2 :=
    match channel_operation with
    | ChannelOp.toFirst => einsum_bwhc_bcwh image1
    | ChannelOp.toLast => einsum_bcwh_bwhc image1
    | ChannelOp.noOp => image1
  match batch_operation with
  | BatchOp.squeezeAll => squeeze image2
  | _ => image2

/-- Function `_get_format_fx` from normalization.py: build the apply / revert pair of
reformatters for the given input. -/
def get_format_fx (image : NDArray) (image_channel_format : Channels) :
    (NDArray → NDArray) × (NDArray → NDArray) :=
  let add_batch := image.shape.length = 3
  let convert_ordering := image_channel_format = Channels.first
  let apply_batch := if add_batch then BatchOp.expand else BatchOp.noOp
  let apply_ordering := if convert_ordering then ChannelOp.toLast else ChannelOp.noOp
  let apply_fx := fun a => format_array a apply_batch apply_ordering
  let revert_batch := if add_batch then BatchOp.squeezeAll else BatchOp.noOp
  let revert_ordering := if convert_ordering then ChannelOp.toFirst else ChannelOp.noOp
  let revert_fx := fun a => format_array a revert_batch revert_ordering
  (apply_fx, revert_fx)

/-- Function `scaling_normalization` from normalization.py: cast to float, clip values
`<= 0` to 0, divide by the global max, scale to 255, cast to uint8.
(When the clipped maximum is 0, numpy produces NaN which the uint8 cast turns
into 0; the rational model's convention `q / 0 = 0` yields the same 0.) -/
def scaling_normalization (image : NDArray) : NDArray :=
  let clipped := image.data.map (fun q => if q ≤ 0 then 0 else q)
  let mx := npMax clipped
  ⟨image.shape, DType.uint8, clipped.map (fun q => astypeUint8 (q / mx * 255))⟩

/-- Function `standard_normalization` from normalization.py: `_, _, c = image.shape`
(fails on any rank other than 3, modeled as `none`); identity when the
channel count is in {1,3,4} and the dtype is float32 or uint8, otherwise
delegate to `scaling_normalization`. -/
def standard_normalization (image : NDArray) : Option NDArray :=
  match image.shape with
  | [_, _, c] =>
    if c ∈ ([1, 3, 4] : List ℕ) then
      if image.dtype ∈ [DType.float32, DType.uint8] then some image
      else some (scaling_normalization image)
    else some (scaling_normalization image)
  | _ => none

/-- The arithmetic core of `sigmoid_normalization` on the canonical batched
channel-last array. Per batch element, min and max are taken over the
spatial and channel axes; the per-element block is recovered from the flat
index by `n / m * m` with `m` the per-batch block size, which is exactly the
axes-(1,2,3) reduction broadcast back over the block. -/
def sigmoidCore (expF : ℚ → ℚ) (c th : ℚ) (image1 : NDArray) : NDArray :=
  let max_pixel_val : ℚ := 255
  let m := (image1.shape.drop 1).prod
  ⟨image1.shape, DType.float64,
    mkData image1.data.length (fun n =>
      let block := (image1.data.drop (n / m * m)).take m
      let min_val := npMin block
      let max_val := npMax block
      let range_val := max (max_val - min_val) 1
      let norm := (image1.data.getD n 0 - min_val) / range_val
      1 / (1 + expF (c * (th - norm))) * max_pixel_val)⟩

/-- Function `sigmoid_normalization` from normalization.py. `expF` abstracts the
scalar `np.exp` routine (a transcendental float kernel with no exact
counterpart; every claim below holds for an arbitrary `expF`). -/
def sigmoid_normalization (expF : ℚ → ℚ) (image : NDArray) (c th : ℚ)
    (channels : Channels) : NDArray :=
  let fx := get_format_fx image channels
  let image1 := fx.1 image
  let normalized := sigmoidCore expF c th image1
  let reverted := fx.2 normalized
  ⟨reverted.shape, DType.uint8, reverted.data.map astypeUint8⟩

/-- Function `sentinel_truecolor_image` from normalization.py: assert exactly 3
channels (modeled as `none` otherwise); a pixel is saturated when any of its
3 original channel values strictly exceeds `normalizer`; saturated pixels
get 255 on all channels, all other values are scaled by `255 / normalizer`
and cast to uint8. -/
def sentinel_truecolor_image (image : NDArray) (normalizer : ℚ) :
    Option NDArray :=
  match image.shape with
  | [h, w, c] =>
    if c = 3 then
      some ⟨[h, w, 3], DType.uint8,
        mkData image.data.length (fun n =>
          let saturated :=
            (List.range 3).any (fun j =>
              decide (normalizer < image.data.getD (n / 3 * 3 + j) 0))
          if saturated then 255
          else astypeUint8 (image.data.getD n 0 / normalizer * 255))⟩
    else none
  | _ => none

/-- The arithmetic core of `invert_mean_std_normalization`: `mean` and `std`
are per-channel vectors, expanded by numpy to shape (1,1,1,C) and broadcast
over the canonical batched channel-last layout; in row-major flat form the
channel of index `n` is `n %` (size of the last axis). -/
def invertCore (mean std : List ℚ) (image1 : NDArray) : NDArray :=
  let lastDim := image1.shape.getLastD 1
  ⟨image1.shape, DType.float64,
    mkData image1.data.length (fun n =>
      image1.data.getD n 0 * std.getD (n % lastDim) 0
        + mean.getD (n % lastDim) 0)⟩

/-- Function `invert_mean_std_normalization` from normalization.py. -/
def invert_mean_std_normalization (image : NDArray) (mean std : List ℚ)
    (channels : Channels) : NDArray :=
  let fx := get_format_fx image channels
  let image1 := fx.1 image
  let normalized := invertCore mean std image1
  fx.2 normalized

/-- NumPy type promotion for `pythonFloat * array`: float32 and float64
arrays keep their dtype, integer arrays are promoted to float64. -/
def promoteFloatMul : DType → DType
  | DType.float32 => DType.float32
  | DType.float64 => DType.float64
  | _ => DType.float64

/-- Function `_render_image_data` from image.py, on rank-2 and rank-3 arrays (the
shapes the decoders produce): rank-2 input gets a channel axis appended;
rank-3 input with at least 3 channels is rendered per `render_method`
(slicing keeps the dtype; the luma arithmetic of "bw" promotes per
`promoteFloatMul`); anything else raises, modeled as `none`.
`data[:, :, 1:4]` clamps at the actual channel count `c`, so the "sentinel"
slice has `min 4 c - 1` channels. -/
def render_image_data (data : NDArray) (render_method : String) :
    Option NDArray :=
  match data.shape with
  | [h, w] => some ⟨[h, w, 1], data.dtype, data.data⟩
  | [h, w, c] =>
    if 3 ≤ c then
      if render_method = "rgb" then
        some ⟨[h, w, 3], data.dtype,
          mkData (h * w * 3) (fun n => data.data.getD (n / 3 * c + n % 3) 0)⟩
      else if render_method = "bgr" then
        some ⟨[h, w, 3], data.dtype,
          mkData (h * w * 3) (fun n =>
            data.data.getD (n / 3 * c + (2 - n % 3)) 0)⟩
      else if render_method = "sentinel" then
        let k := min 4 c - 1
        some ⟨[h, w, k], data.dtype,
          mkData (h * w * k) (fun n =>
            data.data.getD (n / k * c + (1 + (k - 1 - n % k))) 0)⟩
      else if render_method = "bw" then
        some ⟨[h, w, 1], promoteFloatMul data.dtype,
          mkData (h * w) (fun n =>
            3 / 10 * data.data.getD (n * c) 0
              + 59 / 100 * data.data.getD (n * c + 1) 0
              + 11 / 100 * data.data.getD (n * c + 2) 0)⟩
      else none
    else none
  | _ => none

/-- Is `p` a leading segment of `s`? (python `str.startswith`). -/
def isPre : List Char → List Char → Bool
  | [], _ => true
  | _ :: _, [] => false
  | p :: ps, c :: cs => p = c && isPre ps cs

/-- Does `pat` occur anywhere in `s`? (python `pat in s`). -/
def hasSub (pat : List Char) : List Char → Bool
  | [] => isPre pat []
  | c :: cs => isPre pat (c :: cs) || hasSub pat cs

/-- python `str.replace`: replace every (leftmost, non-overlapping)
occurrence of `pat` by `rep`. -/
def replaceAll (pat rep : List Char) : List Char → List Char
  | [] => []
  | c :: cs =>
    if h : pat ≠ [] ∧ isPre pat (c :: cs) then
      rep ++ replaceAll pat rep ((c :: cs).drop pat.length)
    else c :: replaceAll pat rep cs
termination_by s => s.length
decreasing_by
  · simp only [List.length_drop]
    have : pat.length ≠ 0 := by
      intro hz
      exact h.1 (List.eq_nil_of_length_eq_zero hz)
    simp only [List.length_cons]
    omega
  · simp [Nat.lt_succ_self]

/-- Function `server_path` from image_tiles_server.py: convert an external
scheme-qualified path to the URL path used by the image route. -/
def server_path (ext_path : List Char) : List Char :=
  if hasSub "s3://".toList ext_path then
    "images/s3/".toList ++ ext_path.drop 5
  else if hasSub "gs://".toList ext_path then
    "images/".toList ++ ext_path.drop 3
  else
    "images/".toList ++ ext_path.drop 1

/-- The path rewriting at the top of `read_and_render_image`
(image_tiles_server.py lines 92-95): recover the scheme-qualified path from
the request path. -/
def rewrite_request_path (path : List Char) : List Char :=
  if isPre "/s3".toList path then replaceAll "/s3/".toList "s3://".toList path
  else if isPre "/gs".toList path then
    replaceAll "/gs/".toList "gs://".toList path
  else path

/-- The full mangling round trip: `server_path` produces `images/X`; the
flask route `/images/<path:image_path>` receives `X` and prepends `/`; the
result is fed to the rewriting in `read_and_render_image`. -/
def url_round_trip (ext_path : List Char) : List Char :=
  rewrite_request_path ('/' :: (server_path ext_path).drop 7)

/-- The symbolic result of a `glob` call: which backend handled the path.
(`_aws_glob` and `_local_glob` perform storage I/O, modeled here as tagged
outcomes; `_gcs_glob` raises `NotImplementedError`.) -/
inductive GlobOutcome where
  | awsListing (path : List Char)
  | localListing (path : List Char)
deriving DecidableEq

/-- The error raised by `_gcs_glob`. -/
inductive GlobError where
  | notImplemented
deriving DecidableEq

/-- Function `glob` from glob.py: dispatch on `"s3://" in path`, then
`"gs://" in path` (substring tests), else the local filesystem glob. -/
def glob (path : List Char) : Except GlobError GlobOutcome :=
  if hasSub "s3://".toList path then Except.ok (GlobOutcome.awsListing path)
  else if hasSub "gs://".toList path then Except.error GlobError.notImplemented
  else Except.ok (GlobOutcome.localListing path)

/-- Axis permutation (C,H,W) → (H,W,C) of a rank-3 array: the channel-last
equivalent of a channel-first image (used to state layout-invariance
claims). -/
def permCHWtoHWC (a : NDArray) : NDArray :=
  match a.shape with
  | [c, h, w] =>
    ⟨[h, w, c], a.dtype,
      mkData (h * w * c) (fun n =>
        a.data.getD ((n % c * h + n / c / w) * w + n / c % w) 0)⟩
  | _ => a

/-- Axis permutation (H,W,C) → (C,H,W) of a rank-3 array: permute a
channel-last result back to channel-first layout (used to state
layout-invariance claims). -/
def permHWCtoCHW (a : NDArray) : NDArray :=
  match a.shape with
  | [h, w, c] =>
    ⟨[c, h, w], a.dtype,
      mkData (c * h * w) (fun n =>
        a.data.getD ((n / w % h * w + n % w) * c + n / w / h) 0)⟩
  | _ => a

/-- Elementwise multiplication by a scalar constant (`k * x` on a numpy
array), used to state the scale-invariance claim. -/
def scalarMul (k : ℚ) (a : NDArray) : NDArray :=
  ⟨a.shape, a.dtype, a.data.map (fun q => k * q)⟩

/-- The channel index of flat position `n` for the given shape and layout:
the last axis for channel-last data, axis 0 (rank 3) or axis 1 (rank 4) for
channel-first data. -/
def channelIndex (shape : List ℕ) (channels : Channels) (n : ℕ) : ℕ :=
  match channels, shape with
  | Channels.last, s => n % s.getLastD 1
  | Channels.first, [_, h, w] => n / w / h
  | Channels.first, [_, c, h, w] => n / w / h % c
  | Channels.first, _ => 0

/-- Modelled from the spec: the "subtract mean, divide by std" preprocessing
pipeline that `invert_mean_std_normalization` is claimed to invert; `mean`
and `std` hold one value per channel and broadcast over all other axes. -/
def mean_std_normalize (x : NDArray) (mean std : List ℚ)
    (channels : Channels) : NDArray :=
  ⟨x.shape, x.dtype,
    mkData x.data.length (fun n =>
      let ch := channelIndex x.shape channels n
      (x.data.getD n 0 - mean.getD ch 0) / std.getD ch 0)⟩

/-! ### Helper lemmas: lists, flat indexing, row-major encode / decode -/

lemma mkData_length (n : ℕ) (f : ℕ → ℚ) : (mkData n f).length = n := by
  simp [mkData]

lemma mkData_getD {i n : ℕ} (f : ℕ → ℚ) (h : i < n) :
    (mkData n f).getD i 0 = f i := by
  simp [mkData, List.getD_eq_getElem?_getD, List.getElem?_map,
    List.getElem?_range h]

lemma mkData_map (n : ℕ) (f : ℕ → ℚ) (g : ℚ → ℚ) :
    (mkData n f).map g = mkData n (fun i => g (f i)) := by
  simp [mkData, List.map_map, Function.comp]

lemma mkData_ext {n1 n2 : ℕ} {f g : ℕ → ℚ} (hn : n1 = n2)
    (h : ∀ i < n2, f i = g i) : mkData n1 f = mkData n2 g := by
  subst hn
  unfold mkData
  apply List.map_congr_left
  intro i hi
  exact h i (List.mem_range.mp hi)

lemma getD_map_zero (g : ℚ → ℚ) (hg : g 0 = 0) (l : List ℚ) (i : ℕ) :
    (l.map g).getD i 0 = g (l.getD i 0) := by
  by_cases h : i < l.length
  · simp [List.getD_eq_getElem?_getD, List.getElem?_map,
      List.getElem?_eq_getElem h]
  · rw [List.getD_eq_getElem?_getD, List.getD_eq_getElem?_getD,
      List.getElem?_eq_none (by simpa using h),
      List.getElem?_eq_none (by simpa using h)]
    simp [hg]

lemma prod_filter_ne_one (l : List ℕ) :
    (l.filter (fun d => d ≠ 1)).prod = l.prod := by
  induction l with
  | nil => rfl
  | cons x xs ih =>
    by_cases hx : x = 1
    · subst hx; simpa [List.filter_cons] using ih
    · rw [List.filter_cons, if_pos (by simpa using hx), List.prod_cons,
        List.prod_cons, ih]

lemma filter_ne_one_of_two_le (l : List ℕ) (h : ∀ d ∈ l, 2 ≤ d) :
    l.filter (fun d => d ≠ 1) = l := by
  apply List.filter_eq_self.mpr
  intro d hd
  have := h d hd
  simp only [ne_eq, decide_eq_true_eq]
  omega

lemma enc_mod {r d : ℕ} (x : ℕ) (h : r < d) : (x * d + r) % d = r := by
  rw [mul_comm x d, Nat.mul_add_mod, Nat.mod_eq_of_lt h]

lemma enc_div {r d : ℕ} (x : ℕ) (h : r < d) : (x * d + r) / d = x := by
  rw [mul_comm x d, Nat.mul_add_div (by omega), Nat.div_eq_of_lt h,
    Nat.add_zero]

lemma enc_lt {X d x r : ℕ} (hx : x < X) (hr : r < d) : x * d + r < X * d := by
  calc x * d + r < x * d + d := by omega
    _ = (x + 1) * d := by ring
    _ ≤ X * d := Nat.mul_le_mul_right d hx

lemma recompose (n h w c : ℕ) :
    ((n / h / w / c * c + n / h / w % c) * w + n / h % w) * h + n % h = n := by
  rw [Nat.div_add_mod', Nat.div_add_mod', Nat.div_add_mod']

lemma div2_lt {n x y z : ℕ} (hn : n < x * y * z) : n / z / y < x := by
  rw [Nat.div_div_eq_div_mul]
  have hzy : 0 < z * y := by
    rcases Nat.eq_zero_or_pos (z * y) with h0 | h0
    · exfalso
      have hxyz : x * y * z = 0 := by
        rcases Nat.mul_eq_zero.mp h0 with hz | hy
        · simp [hz]
        · simp [hy]
      omega
    · exact h0
  rw [Nat.div_lt_iff_lt_mul hzy]
  calc n < x * y * z := hn
    _ = x * (z * y) := by ring

lemma div3_lt {n b x y z : ℕ} (hn : n < b * x * y * z) : n / z / y / x < b := by
  rw [Nat.div_div_eq_div_mul, Nat.div_div_eq_div_mul]
  have hzyx : 0 < z * (y * x) := by
    rcases Nat.eq_zero_or_pos (z * (y * x)) with h0 | h0
    · exfalso
      have hbxyz : b * x * y * z = 0 := by
        rcases Nat.mul_eq_zero.mp h0 with hz | h1
        · simp [hz]
        · rcases Nat.mul_eq_zero.mp h1 with hy | hx
          · simp [hy]
          · simp [hx]
      omega
    · exact h0
  rw [Nat.div_lt_iff_lt_mul hzyx]
  calc n < b * x * y * z := hn
    _ = b * (z * (y * x)) := by ring

lemma div3_eq_zero {n x y z : ℕ} (hn : n < x * y * z) : n / z / y / x = 0 := by
  have h1 : n < 1 * x * y * z := by
    calc n < x * y * z := hn
      _ = 1 * x * y * z := by ring
  exact Nat.lt_one_iff.mp (div3_lt h1)

lemma ext_data {a b : NDArray} (hs : a.shape = b.shape)
    (hd : a.dtype = b.dtype) (h : a.data = b.data) : a = b := by
  cases a; cases b; simp_all

lemma astypeUint8_nonneg (q : ℚ) : 0 ≤ astypeUint8 q := by
  unfold astypeUint8
  have : (0 : ℤ) ≤ (if 0 ≤ q then ⌊q⌋ else ⌈q⌉) % 256 :=
    Int.emod_nonneg _ (by norm_num)
  exact_mod_cast this

lemma astypeUint8_le (q : ℚ) : astypeUint8 q ≤ 255 := by
  unfold astypeUint8
  have h1 : (if 0 ≤ q then ⌊q⌋ else ⌈q⌉) % 256 < 256 :=
    Int.emod_lt_of_pos _ (by norm_num)
  have h2 : (if 0 ≤ q then ⌊q⌋ else ⌈q⌉) % 256 ≤ 255 := by omega
  exact_mod_cast h2

lemma astypeUint8_zero : astypeUint8 0 = 0 := by
  norm_num [astypeUint8]

lemma foldl_max_map_mul (k : ℚ) (hk : 0 ≤ k) :
    ∀ (l : List ℚ) (a : ℚ),
      (l.map (fun q => k * q)).foldl max (k * a) = k * l.foldl max a
  | [], _ => rfl
  | x :: xs, a => by
    simp only [List.map_cons, List.foldl_cons]
    rw [← mul_max_of_nonneg _ _ hk]
    exact foldl_max_map_mul k hk xs (max a x)

lemma npMax_map_mul (k : ℚ) (hk : 0 ≤ k) (l : List ℚ) :
    npMax (l.map (fun q => k * q)) = k * npMax l := by
  cases l with
  | nil => simp [npMax]
  | cons x xs => simpa [npMax] using foldl_max_map_mul k hk xs x

/-! ### C2, C3, C10: standard and scaling normalization -/

/-- C2: for every rank-3 (H,W,C) image whose channel count is in {1,3,4} and
whose dtype is float32 or uint8, `standard_normalization` returns the input
unchanged; for every other rank-3 image it returns exactly
`scaling_normalization` of the input. -/
theorem standard_normalization_identity_or_scaling (a : NDArray) (h w c : ℕ)
    (hs : a.shape = [h, w, c]) :
    ((c ∈ ([1, 3, 4] : List ℕ) ∧ a.dtype ∈ [DType.float32, DType.uint8]) →
        standard_normalization a = some a)
    ∧ (¬(c ∈ ([1, 3, 4] : List ℕ) ∧ a.dtype ∈ [DType.float32, DType.uint8]) →
        standard_normalization a = some (scaling_normalization a)) := by
  unfold standard_normalization
  rw [hs]
  constructor
  · rintro ⟨h1, h2⟩
    simp [h1, h2]
  · intro hn
    by_cases h1 : c ∈ ([1, 3, 4] : List ℕ)
    · have h2 : a.dtype ∉ [DType.float32, DType.uint8] := fun hd => hn ⟨h1, hd⟩
      simp [h1, h2]
    · simp [h1]

/-- Witness for C2 on concrete inputs: a (1,1,3) uint8 image is returned
unchanged, and a (1,1,2) image goes through scaling. -/
theorem standard_normalization_identity_or_scaling_witness :
    standard_normalization ⟨[1, 1, 3], DType.uint8, [5, 6, 7]⟩
        = some ⟨[1, 1, 3], DType.uint8, [5, 6, 7]⟩
    ∧ standard_normalization ⟨[1, 1, 2], DType.uint8, [5, 6]⟩
        = some (scaling_normalization ⟨[1, 1, 2], DType.uint8, [5, 6]⟩) :=
  ⟨(standard_normalization_identity_or_scaling _ 1 1 3 rfl).1
      (by constructor <;> decide),
   (standard_normalization_identity_or_scaling _ 1 1 2 rfl).2 (by decide)⟩

/-- C10: `standard_normalization` destructures the shape as `_, _, c` and
therefore fails (models as `none`) on every input whose rank is not exactly
3; on every rank-3 input it returns a result. -/
theorem standard_normalization_rank3_only (a : NDArray) :
    (a.shape.length ≠ 3 → standard_normalization a = none)
    ∧ (a.shape.length = 3 → (standard_normalization a).isSome = true) := by
  constructor
  · intro hlen
    match hs : a.shape with
    | [] => simp [standard_normalization, hs]
    | [_] => simp [standard_normalization, hs]
    | [_, _] => simp [standard_normalization, hs]
    | [_, _, _] => rw [hs] at hlen; simp at hlen
    | _ :: _ :: _ :: _ :: _ => simp [standard_normalization, hs]
  · intro hlen
    match hs : a.shape with
    | [] => rw [hs] at hlen; simp at hlen
    | [_] => rw [hs] at hlen; simp at hlen
    | [_, _] => rw [hs] at hlen; simp at hlen
    | [x, y, z] =>
      by_cases h1 : z ∈ ([1, 3, 4] : List ℕ) <;>
        by_cases h2 : a.dtype ∈ [DType.float32, DType.uint8] <;>
          simp [standard_normalization, hs, h1, h2]
    | _ :: _ :: _ :: u :: tl => rw [hs] at hlen; simp at hlen

/-- Witness for C10: a rank-4 batched array fails, a rank-3 array
succeeds. -/
theorem standard_normalization_rank3_only_witness :
    standard_normalization ⟨[1, 1, 1, 3], DType.uint8, [5, 6, 7]⟩ = none
    ∧ (standard_normalization ⟨[1, 1, 3], DType.uint8, [5, 6, 7]⟩).isSome
        = true :=
  ⟨(standard_normalization_rank3_only ⟨[1, 1, 1, 3], DType.uint8, [5, 6, 7]⟩).1
      (by decide),
   (standard_normalization_rank3_only ⟨[1, 1, 3], DType.uint8, [5, 6, 7]⟩).2
      (by decide)⟩

/-- C3: on any image with a strictly positive entry,
`scaling_normalization` produces a uint8 array with every value in [0, 255],
and it is scale-invariant: multiplying the input by any positive constant
`k` leaves the output unchanged. -/
theorem scaling_normalization_uint8_range_scale_invariant (a : NDArray)
    (k : ℚ) (hpos : ∃ q ∈ a.data, 0 < q) (hk : 0 < k) :
    (scaling_normalization a).dtype = DType.uint8
    ∧ (∀ q ∈ (scaling_normalization a).data, 0 ≤ q ∧ q ≤ 255)
    ∧ scaling_normalization (scalarMul k a) = scaling_normalization a := by
  refine ⟨rfl, ?_, ?_⟩
  · intro q hq
    simp only [scaling_normalization, List.mem_map] at hq
    obtain ⟨v, -, rfl⟩ := hq
    exact ⟨astypeUint8_nonneg _, astypeUint8_le _⟩
  · apply ext_data
    · rfl
    · rfl
    simp only [scaling_normalization, scalarMul]
    have hclip :
        (a.data.map (fun q => k * q)).map (fun q => if q ≤ 0 then 0 else q)
          = (a.data.map (fun q => if q ≤ 0 then 0 else q)).map
              (fun q => k * q) := by
      rw [List.map_map, List.map_map]
      apply List.map_congr_left
      intro v _
      simp only [Function.comp]
      by_cases hv : v ≤ 0
      · have hkv : k * v ≤ 0 := by
          calc k * v ≤ k * 0 := by
                exact mul_le_mul_of_nonneg_left hv (le_of_lt hk)
            _ = 0 := by ring
        simp [hv, hkv]
      · push_neg at hv
        have hkv : ¬ k * v ≤ 0 := by
          push_neg
          exact mul_pos hk hv
        simp [hkv, not_le.mpr hv]
    rw [hclip, npMax_map_mul k (le_of_lt hk), List.map_map]
    apply List.map_congr_left
    intro v _
    simp only [Function.comp]
    congr 1
    rw [mul_div_mul_left _ _ (ne_of_gt hk)]

/-- Witness for C3 on a concrete image with a positive entry and k = 7. -/
theorem scaling_normalization_uint8_range_scale_invariant_witness :
    (scaling_normalization ⟨[1, 1, 2], DType.int64, [-3, 5]⟩).dtype
        = DType.uint8
    ∧ (∀ q ∈ (scaling_normalization ⟨[1, 1, 2], DType.int64, [-3, 5]⟩).data,
        0 ≤ q ∧ q ≤ 255)
    ∧ scaling_normalization (scalarMul 7 ⟨[1, 1, 2], DType.int64, [-3, 5]⟩)
        = scaling_normalization ⟨[1, 1, 2], DType.int64, [-3, 5]⟩ :=
  scaling_normalization_uint8_range_scale_invariant
    ⟨[1, 1, 2], DType.int64, [-3, 5]⟩ 7 ⟨5, by decide, by decide⟩ (by decide)

/-! ### C4: sentinel true-color conversion -/

/-- C4: `sentinel_truecolor_image` fails unless the (rank-3) input has
exactly 3 channels; on an (H,W,3) input, every pixel one of whose 3 original
channel values strictly exceeds the normalizer gets 255 on all 3 output
channels, and every other value is the input value divided by the
normalizer, times 255, cast to uint8 (the saturation test is a strict
greater-than). -/
theorem sentinel_truecolor_spec (a : NDArray) (h w c : ℕ) (norm : ℚ)
    (hs : a.shape = [h, w, c]) :
    (c ≠ 3 → sentinel_truecolor_image a norm = none)
    ∧ (c = 3 → ∃ r, sentinel_truecolor_image a norm = some r
        ∧ r.dtype = DType.uint8 ∧ r.shape = [h, w, 3]
        ∧ r.data.length = a.data.length
        ∧ ∀ p j, 3 * p + j < a.data.length → j < 3 →
            ((∃ i, i < 3 ∧ norm < a.data.getD (3 * p + i) 0) →
                r.data.getD (3 * p + j) 0 = 255)
            ∧ ((∀ i, i < 3 → a.data.getD (3 * p + i) 0 ≤ norm) →
                r.data.getD (3 * p + j) 0
                  = astypeUint8 (a.data.getD (3 * p + j) 0 / norm * 255))) := by
  constructor
  · intro hc
    simp [sentinel_truecolor_image, hs, hc]
  · intro hc
    subst hc
    unfold sentinel_truecolor_image
    rw [hs]
    refine ⟨_, rfl, rfl, rfl, mkData_length _ _, ?_⟩
    intro p j hpj hj
    have hdiv : (3 * p + j) / 3 * 3 = 3 * p := by
      rw [mul_comm 3 p, enc_div p hj, mul_comm p 3]
    rw [mkData_getD _ hpj]
    simp only [hdiv]
    constructor
    · rintro ⟨i, hi, hgt⟩
      rw [if_pos]
      rw [List.any_eq_true]
      exact ⟨i, List.mem_range.mpr hi, decide_eq_true hgt⟩
    · intro hle
      rw [if_neg]
      simp only [List.any_eq_true, List.mem_range, decide_eq_true_eq]
      push_neg
      intro i hi
      exact hle i hi

/-- Witness for C4: a (1,1,4) image fails; on a (1,2,3) image the pixel with
a channel value 2500 > 2000 is saturated to 255 and the unsaturated pixel is
scaled, e.g. channel value 300 maps to `astypeUint8 (300/2000*255)`. -/
theorem sentinel_truecolor_spec_witness :
    sentinel_truecolor_image ⟨[1, 1, 4], DType.uint8, [1, 2, 3, 4]⟩ 2000
        = none
    ∧ ∃ r, sentinel_truecolor_image
          ⟨[1, 2, 3], DType.int64, [100, 2500, 300, 10, 20, 30]⟩ 2000
        = some r
        ∧ r.data.getD (3 * 0 + 0) 0 = 255
        ∧ r.data.getD (3 * 1 + 2) 0 = astypeUint8 (30 / 2000 * 255) := by
  constructor
  · exact (sentinel_truecolor_spec ⟨[1, 1, 4], DType.uint8, [1, 2, 3, 4]⟩
      1 1 4 2000 rfl).1 (by decide)
  · obtain ⟨r, hr, -, -, -, hval⟩ :=
      (sentinel_truecolor_spec
        ⟨[1, 2, 3], DType.int64, [100, 2500, 300, 10, 20, 30]⟩
        1 2 3 2000 rfl).2 rfl
    refine ⟨r, hr, ?_, ?_⟩
    · exact (hval 0 0 (by decide) (by decide)).1 ⟨1, by decide, by decide⟩
    · have := (hval 1 2 (by decide) (by decide)).2 (by decide)
      simpa using this

/-! ### C6, C7: the channel renderer -/

/-- C6 (amended): for rank-3 inputs with at least 4 channels, the "sentinel"
render selects channels 1..3 and reverses them: output channel j holds input
channel 3 - j. (With exactly 3 channels the slice `1:4` clamps to 2
channels; see the counterexample.) -/
theorem render_sentinel_channels (a : NDArray) (h w c : ℕ)
    (hs : a.shape = [h, w, c]) (hc : 4 ≤ c) :
    ∃ r, render_image_data a "sentinel" = some r
      ∧ r.shape = [h, w, 3] ∧ r.dtype = a.dtype
      ∧ r.data.length = h * w * 3
      ∧ ∀ p j, p < h * w → j < 3 →
          r.data.getD (3 * p + j) 0 = a.data.getD (p * c + (3 - j)) 0 := by
  have h3 : 3 ≤ c := by omega
  have hk : min 4 c - 1 = 3 := by omega
  simp only [render_image_data, hs, h3, hk, if_true, reduceIte]
  refine ⟨_, rfl, rfl, rfl, mkData_length _ _, ?_⟩
  intro p j hp hj
  have hlt : 3 * p + j < h * w * 3 := by
    have := enc_lt hp hj
    omega
  rw [mkData_getD _ hlt]
  have hdiv : (3 * p + j) / 3 = p := by
    rw [mul_comm 3 p, enc_div p hj]
  have hmod : (3 * p + j) % 3 = j := by
    rw [mul_comm 3 p, enc_mod p hj]
  rw [hdiv, hmod]
  congr 2
  omega

/-- Counterexample for C6 as stated: on a (1,1,3) input (which has "at least
3 channels") the "sentinel" render returns a 2-channel image, not a
3-channel one. -/
theorem render_sentinel_three_channel_counterexample :
    render_image_data ⟨[1, 1, 3], DType.uint8, [10, 20, 30]⟩ "sentinel"
        = some ⟨[1, 1, 2], DType.uint8, [30, 20]⟩
    ∧ ([1, 1, 2] : List ℕ) ≠ [1, 1, 3] := by
  constructor
  · decide
  · decide

/-- Witness for C6 (amended) on a concrete (1,1,5) input: the output holds
input channels [3,2,1]. -/
theorem render_sentinel_channels_witness :
    ∃ r, render_image_data ⟨[1, 1, 5], DType.uint8, [10, 20, 30, 40, 50]⟩
          "sentinel" = some r
      ∧ r.shape = [1, 1, 3]
      ∧ r.data.getD 0 0 = 40 ∧ r.data.getD 1 0 = 30
      ∧ r.data.getD 2 0 = 20 := by
  obtain ⟨r, hr, hshape, -, -, hval⟩ :=
    render_sentinel_channels ⟨[1, 1, 5], DType.uint8, [10, 20, 30, 40, 50]⟩
      1 1 5 rfl (by decide)
  refine ⟨r, hr, hshape, ?_, ?_, ?_⟩
  · simpa using hval 0 0 (by decide) (by decide)
  · simpa using hval 0 1 (by decide) (by decide)
  · simpa using hval 0 2 (by decide) (by decide)

/-- C7 (amended): the renderer always puts the channel axis last; rank-2
expansion and the "rgb" / "bgr" / "sentinel" slicing renders keep the input
dtype, while "bw" produces `promoteFloatMul` of the input dtype (float32 and
float64 are kept, integer dtypes become float64). -/
theorem render_dtype_channels_last (a b : NDArray) (h w c h2 w2 : ℕ)
    (m : String) (hs : a.shape = [h, w, c]) (hc : 3 ≤ c)
    (hb : b.shape = [h2, w2]) :
    render_image_data b m = some ⟨[h2, w2, 1], b.dtype, b.data⟩
    ∧ (m = "rgb" ∨ m = "bgr" → ∃ r, render_image_data a m = some r
        ∧ r.dtype = a.dtype ∧ r.shape = [h, w, 3])
    ∧ (∃ r, render_image_data a "sentinel" = some r ∧ r.dtype = a.dtype
        ∧ r.shape = [h, w, min 4 c - 1])
    ∧ (∃ r, render_image_data a "bw" = some r
        ∧ r.dtype = promoteFloatMul a.dtype ∧ r.shape = [h, w, 1]) := by
  refine ⟨?_, ?_, ?_, ?_⟩
  · simp only [render_image_data, hb]
  · rintro (rfl | rfl)
    · simp only [render_image_data, hs, hc, if_true, reduceIte]
      exact ⟨_, rfl, rfl, rfl⟩
    · simp only [render_image_data, hs, hc, if_true, reduceIte]
      exact ⟨_, rfl, rfl, rfl⟩
  · simp only [render_image_data, hs, hc, if_true, reduceIte]
    exact ⟨_, rfl, rfl, rfl⟩
  · simp only [render_image_data, hs, hc, if_true, reduceIte]
    exact ⟨_, rfl, rfl, rfl⟩

/-- Counterexample for C7 as stated: "bw" on a uint8 input produces a
float64 result (python-float luma weights promote the integer array), not a
uint8 one. -/
theorem render_bw_dtype_counterexample :
    render_image_data ⟨[1, 1, 3], DType.uint8, [10, 20, 30]⟩ "bw"
        = some ⟨[1, 1, 1], DType.float64, [181 / 10]⟩
    ∧ DType.float64 ≠ DType.uint8 := by
  constructor
  · norm_num [render_image_data, mkData, promoteFloatMul, List.getD]
    rw [if_neg (show ¬("bw" : String) = "rgb" by decide),
      if_neg (show ¬("bw" : String) = "bgr" by decide),
      if_neg (show ¬("bw" : String) = "sentinel" by decide)]
    norm_num [List.range_succ, List.range_zero]
  · decide

/-- Witness for C7 (amended) at concrete inputs: rank-2 expansion keeps
uint8; "rgb" keeps int64; "bw" on float32 stays float32 and on uint8
becomes float64. -/
theorem render_dtype_channels_last_witness :
    render_image_data ⟨[1, 2], DType.uint8, [4, 5]⟩ "rgb"
        = some ⟨[1, 2, 1], DType.uint8, [4, 5]⟩
    ∧ (∃ r, render_image_data ⟨[1, 1, 3], DType.int64, [1, 2, 3]⟩ "rgb"
        = some r ∧ r.dtype = DType.int64 ∧ r.shape = [1, 1, 3])
    ∧ (∃ r, render_image_data ⟨[1, 1, 3], DType.float32, [1, 2, 3]⟩ "bw"
        = some r ∧ r.dtype = DType.float32 ∧ r.shape = [1, 1, 1]) := by
  obtain ⟨h1, h2, -, -⟩ :=
    render_dtype_channels_last ⟨[1, 1, 3], DType.int64, [1, 2, 3]⟩
      ⟨[1, 2], DType.uint8, [4, 5]⟩ 1 1 3 1 2 "rgb" rfl (by decide) rfl
  obtain ⟨-, -, -, h5⟩ :=
    render_dtype_channels_last ⟨[1, 1, 3], DType.float32, [1, 2, 3]⟩
      ⟨[1, 2], DType.uint8, [4, 5]⟩ 1 1 3 1 2 "bw" rfl (by decide) rfl
  exact ⟨h1, h2 (Or.inl rfl), h5⟩

/-! ### C8: scheme path mangling in the server -/

/-- C8 (code bug): `server_path` maps `s3://bucket/key` to
`images/s3/bucket/key` and a local `/a/b` to `images/a/b`, and the image
route's rewriting inverts both; but for `gs://bucket/key` it produces
`images///bucket/key` (the code drops only `gs:` instead of producing the
`gs/` segment its own reverse rewriting expects), so the round trip returns
`///bucket/key` instead of the original path. -/
theorem server_path_gs_mangling_bug :
    server_path "gs://bucket/key".toList = "images///bucket/key".toList
    ∧ url_round_trip "gs://bucket/key".toList = "///bucket/key".toList
    ∧ "///bucket/key".toList ≠ "gs://bucket/key".toList
    ∧ url_round_trip "s3://bucket/key".toList = "s3://bucket/key".toList
    ∧ url_round_trip "/a/b".toList = "/a/b".toList := by
  refine ⟨by decide, ?_, by decide, ?_, ?_⟩ <;>
    simp [url_round_trip, rewrite_request_path, server_path, replaceAll,
      hasSub, isPre]

/-! ### C9: glob dispatch -/

/-- C9 (amended): `glob` dispatches on substring containment, testing
`s3://` before `gs://`: any path containing `s3://` goes to the AWS
backend; otherwise any path containing `gs://` fails with
NotImplementedError; paths containing neither go to the local filesystem
glob. (Dispatch is not by scheme prefix; see the counterexample.) -/
theorem glob_dispatch_substring (p : List Char) :
    (hasSub "s3://".toList p = true →
        glob p = Except.ok (GlobOutcome.awsListing p))
    ∧ (hasSub "s3://".toList p = false → hasSub "gs://".toList p = true →
        glob p = Except.error GlobError.notImplemented)
    ∧ (hasSub "s3://".toList p = false → hasSub "gs://".toList p = false →
        glob p = Except.ok (GlobOutcome.localListing p)) := by
  refine ⟨fun h1 => ?_, fun h1 h2 => ?_, fun h1 h2 => ?_⟩
  · unfold glob
    rw [h1]
    simp
  · unfold glob
    rw [h1, h2]
    simp
  · unfold glob
    rw [h1, h2]
    simp

/-- Witness for C9 (amended) on concrete paths of each kind. -/
theorem glob_dispatch_substring_witness :
    glob "s3://bucket/x.png".toList
        = Except.ok (GlobOutcome.awsListing "s3://bucket/x.png".toList)
    ∧ glob "gs://bucket/x.png".toList = Except.error GlobError.notImplemented
    ∧ glob "/data/imgs/x.png".toList
        = Except.ok (GlobOutcome.localListing "/data/imgs/x.png".toList) :=
  ⟨(glob_dispatch_substring _).1 (by decide),
   (glob_dispatch_substring _).2.1 (by decide) (by decide),
   (glob_dispatch_substring _).2.2 (by decide) (by decide)⟩

/-- Counterexample for C9 as stated: the local path `/a/gs://b` carries no
`s3://` or `gs://` scheme prefix, yet `glob` raises NotImplementedError
instead of delegating to the local filesystem glob. -/
theorem glob_prefix_dispatch_counterexample :
    isPre "s3://".toList "/a/gs://b".toList = false
    ∧ isPre "gs://".toList "/a/gs://b".toList = false
    ∧ glob "/a/gs://b".toList = Except.error GlobError.notImplemented := by
  refine ⟨by decide, by decide, rfl⟩

/-! ### Reformatter algebra for C1 / C5 -/

lemma bcwh_bwhc_eq (a : NDArray) (b c w h : ℕ) (hs : a.shape = [b, c, w, h]) :
    einsum_bcwh_bwhc a = ⟨[b, w, h, c], a.dtype,
      mkData (b * w * h * c) (fun n =>
        a.data.getD (((n / c / h / w * c + n % c) * w + n / c / h % w) * h
          + n / c % h) 0)⟩ := by
  unfold einsum_bcwh_bwhc
  rw [hs]

lemma bwhc_bcwh_eq (a : NDArray) (b w h c : ℕ) (hs : a.shape = [b, w, h, c]) :
    einsum_bwhc_bcwh a = ⟨[b, c, w, h], a.dtype,
      mkData (b * c * w * h) (fun n =>
        a.data.getD (((n / h / w / c * w + n / h % w) * h + n % h) * c
          + n / h / w % c) 0)⟩ := by
  unfold einsum_bwhc_bcwh
  rw [hs]

lemma permCHWtoHWC_eq (a : NDArray) (c h w : ℕ) (hs : a.shape = [c, h, w]) :
    permCHWtoHWC a = ⟨[h, w, c], a.dtype,
      mkData (h * w * c) (fun n =>
        a.data.getD ((n % c * h + n / c / w) * w + n / c % w) 0)⟩ := by
  unfold permCHWtoHWC
  rw [hs]

lemma permHWCtoCHW_eq (a : NDArray) (h w c : ℕ) (hs : a.shape = [h, w, c]) :
    permHWCtoCHW a = ⟨[c, h, w], a.dtype,
      mkData (c * h * w) (fun n =>
        a.data.getD ((n / w % h * w + n % w) * c + n / w / h) 0)⟩ := by
  unfold permHWCtoCHW
  rw [hs]

lemma filter_batch (d1 d2 d3 : ℕ) (h1 : 2 ≤ d1) (h2 : 2 ≤ d2)
    (h3 : 2 ≤ d3) :
    ([1, d1, d2, d3] : List ℕ).filter (fun d => d ≠ 1) = [d1, d2, d3] := by
  have e1 : ([1, d1, d2, d3] : List ℕ) = 1 :: [d1, d2, d3] := rfl
  rw [e1, List.filter_cons, if_neg (by decide)]
  apply filter_ne_one_of_two_le
  intro d hd
  fin_cases hd <;> omega

/-- Applying the batched channel-last reformat to an unbatched channel-first
image is the same as batching its channel-last equivalent. -/
lemma toLast_expand_eq_expand_perm (x : NDArray) (c h w : ℕ)
    (hs : x.shape = [c, h, w]) :
    einsum_bcwh_bwhc (expandDims0 x) = expandDims0 (permCHWtoHWC x) := by
  have hse : (expandDims0 x).shape = [1, c, h, w] := by
    simp [expandDims0, hs]
  rw [bcwh_bwhc_eq (expandDims0 x) 1 c h w hse, permCHWtoHWC_eq x c h w hs]
  apply ext_data
  · rfl
  · rfl
  show mkData (1 * h * w * c) _ = mkData (h * w * c) _
  apply mkData_ext (by ring)
  intro i hi
  have hz : i / c / w / h = 0 := div3_eq_zero hi
  have hlt : i / c / w < h := div2_lt hi
  simp [expandDims0, hz, Nat.mod_eq_of_lt hlt]

/-- Reverting the canonical layout of a batched (leading axis 1)
channel-last array to channel-first, then squeezing, is the same as
squeezing first and permuting the rank-3 result — provided no image
dimension is 1. The final elementwise map (`astypeUint8` in sigmoid, the
identity in invert) commutes with both. -/
lemma squeeze_toFirst_map (N : NDArray) (H W C : ℕ)
    (hs : N.shape = [1, H, W, C]) (h1 : 2 ≤ H) (h2 : 2 ≤ W) (h3 : 2 ≤ C)
    (g : ℚ → ℚ) (hg : g 0 = 0) (dt : DType) :
    (⟨(squeeze (einsum_bwhc_bcwh N)).shape, dt,
        (squeeze (einsum_bwhc_bcwh N)).data.map g⟩ : NDArray)
      = permHWCtoCHW ⟨(squeeze N).shape, dt, (squeeze N).data.map g⟩ := by
  have hsq : (squeeze N).shape = [H, W, C] := by
    show N.shape.filter (fun d => d ≠ 1) = [H, W, C]
    rw [hs]
    exact filter_batch H W C h1 h2 h3
  have hperm := permHWCtoCHW_eq
    ⟨(squeeze N).shape, dt, (squeeze N).data.map g⟩ H W C hsq
  rw [bwhc_bcwh_eq N 1 H W C hs] at *
  rw [hperm]
  apply ext_data
  · show ([1, C, H, W] : List ℕ).filter (fun d => d ≠ 1) = [C, H, W]
    exact filter_batch C H W h3 h1 h2
  · rfl
  show (mkData (1 * C * H * W) _).map g = mkData (C * H * W) _
  rw [mkData_map]
  apply mkData_ext (by ring)
  intro i hi
  have hz : i / W / H / C = 0 := div3_eq_zero hi
  have hlt : i / W / H < C := div2_lt hi
  rw [getD_map_zero g hg]
  show g _ = g ((squeeze N).data.getD _ 0)
  have hd : (squeeze N).data = N.data := rfl
  rw [hd, hz, Nat.mod_eq_of_lt hlt]
  ring_nf

/-- Unfolding of `sigmoid_normalization` for an unbatched channel-last input. -/
lemma sigmoid_eq_rank3_last (expF : ℚ → ℚ) (x : NDArray) (cc th : ℚ)
    (hlen : x.shape.length = 3) :
    sigmoid_normalization expF x cc th Channels.last
      = ⟨(squeeze (sigmoidCore expF cc th (expandDims0 x))).shape,
          DType.uint8,
          (squeeze (sigmoidCore expF cc th (expandDims0 x))).data.map
            astypeUint8⟩ := by
  unfold sigmoid_normalization get_format_fx format_array
  simp [hlen]

/-- Unfolding of `sigmoid_normalization` for a batched channel-last input. -/
lemma sigmoid_eq_rank4_last (expF : ℚ → ℚ) (x : NDArray) (cc th : ℚ)
    (hlen : x.shape.length = 4) :
    sigmoid_normalization expF x cc th Channels.last
      = ⟨(sigmoidCore expF cc th x).shape, DType.uint8,
          (sigmoidCore expF cc th x).data.map astypeUint8⟩ := by
  unfold sigmoid_normalization get_format_fx format_array
  simp [hlen]

/-- Unfolding of `sigmoid_normalization` for an unbatched channel-first
input. -/
lemma sigmoid_eq_rank3_first (expF : ℚ → ℚ) (x : NDArray) (cc th : ℚ)
    (hlen : x.shape.length = 3) :
    sigmoid_normalization expF x cc th Channels.first
      = ⟨(squeeze (einsum_bwhc_bcwh (sigmoidCore expF cc th
            (einsum_bcwh_bwhc (expandDims0 x))))).shape, DType.uint8,
          (squeeze (einsum_bwhc_bcwh (sigmoidCore expF cc th
            (einsum_bcwh_bwhc (expandDims0 x))))).data.map astypeUint8⟩ := by
  unfold sigmoid_normalization get_format_fx format_array
  simp [hlen]

/-- Unfolding of `sigmoid_normalization` for a batched channel-first input. -/
lemma sigmoid_eq_rank4_first (expF : ℚ → ℚ) (x : NDArray) (cc th : ℚ)
    (hlen : x.shape.length = 4) :
    sigmoid_normalization expF x cc th Channels.first
      = ⟨(einsum_bwhc_bcwh (sigmoidCore expF cc th
            (einsum_bcwh_bwhc x))).shape, DType.uint8,
          (einsum_bwhc_bcwh (sigmoidCore expF cc th
            (einsum_bcwh_bwhc x))).data.map astypeUint8⟩ := by
  unfold sigmoid_normalization get_format_fx format_array
  simp [hlen]

lemma removeBatch_eq (a : NDArray) (s : List ℕ) (hs : a.shape = 1 :: s) :
    removeBatch a = ⟨s, a.dtype, a.data⟩ := by
  unfold removeBatch
  rw [hs]
  simp

/-! ### C1: the reformatter round trip in sigmoid normalization -/

/-- C1 (amended): for every unbatched rank-3 image all of whose dimensions
are at least 2 (so that `np.squeeze` removes exactly the synthetic batch
axis), `sigmoid_normalization` — for an arbitrary scalar exponential and
arbitrary contrast/threshold — yields the same array as the batched-with-
size-1 input after removal of the synthetic batch axis, in both layouts;
and the channel-first result equals the channel-last result of the
axis-permuted input permuted back. (Images with a size-1 dimension lose
that axis as well; see the counterexample.) -/
theorem sigmoid_format_restore (expF : ℚ → ℚ) (x : NDArray) (cc th : ℚ)
    (d1 d2 d3 : ℕ) (hs : x.shape = [d1, d2, d3])
    (h1 : 2 ≤ d1) (h2 : 2 ≤ d2) (h3 : 2 ≤ d3) :
    sigmoid_normalization expF x cc th Channels.last
      = removeBatch (sigmoid_normalization expF (expandDims0 x) cc th
          Channels.last)
    ∧ sigmoid_normalization expF x cc th Channels.first
      = removeBatch (sigmoid_normalization expF (expandDims0 x) cc th
          Channels.first)
    ∧ sigmoid_normalization expF x cc th Channels.first
      = permHWCtoCHW (sigmoid_normalization expF (permCHWtoHWC x) cc th
          Channels.last) := by
  have hlen3 : x.shape.length = 3 := by rw [hs]; rfl
  have hlen4 : (expandDims0 x).shape.length = 4 := by
    show (1 :: x.shape).length = 4
    rw [hs]
    rfl
  refine ⟨?_, ?_, ?_⟩
  · rw [sigmoid_eq_rank3_last expF x cc th hlen3,
      sigmoid_eq_rank4_last expF (expandDims0 x) cc th hlen4,
      removeBatch_eq _ x.shape rfl]
    apply ext_data
    · show (sigmoidCore expF cc th (expandDims0 x)).shape.filter
        (fun d => d ≠ 1) = x.shape
      have hK : (sigmoidCore expF cc th (expandDims0 x)).shape
          = [1, d1, d2, d3] := by
        show (1 :: x.shape) = _
        rw [hs]
      rw [hK, hs]
      exact filter_batch d1 d2 d3 h1 h2 h3
    · rfl
    · rfl
  · have hE : (einsum_bcwh_bwhc (expandDims0 x)).shape = [1, d2, d3, d1] := by
      rw [bcwh_bwhc_eq (expandDims0 x) 1 d1 d2 d3
        (by show (1 :: x.shape) = _; rw [hs])]
    have hK : (sigmoidCore expF cc th
        (einsum_bcwh_bwhc (expandDims0 x))).shape = [1, d2, d3, d1] := hE
    have hT : (einsum_bwhc_bcwh (sigmoidCore expF cc th
        (einsum_bcwh_bwhc (expandDims0 x)))).shape = [1, d1, d2, d3] := by
      rw [bwhc_bcwh_eq _ 1 d2 d3 d1 hK]
    rw [sigmoid_eq_rank3_first expF x cc th hlen3,
      sigmoid_eq_rank4_first expF (expandDims0 x) cc th hlen4,
      removeBatch_eq ⟨(einsum_bwhc_bcwh (sigmoidCore expF cc th
        (einsum_bcwh_bwhc (expandDims0 x)))).shape, DType.uint8,
        (einsum_bwhc_bcwh (sigmoidCore expF cc th
          (einsum_bcwh_bwhc (expandDims0 x)))).data.map astypeUint8⟩
        [d1, d2, d3] hT]
    apply ext_data
    · show (einsum_bwhc_bcwh (sigmoidCore expF cc th
        (einsum_bcwh_bwhc (expandDims0 x)))).shape.filter (fun d => d ≠ 1)
          = [d1, d2, d3]
      rw [hT]
      exact filter_batch d1 d2 d3 h1 h2 h3
    · rfl
    · rfl
  · have hperm : (permCHWtoHWC x).shape = [d2, d3, d1] := by
      rw [permCHWtoHWC_eq x d1 d2 d3 hs]
    have hlenp : (permCHWtoHWC x).shape.length = 3 := by rw [hperm]; rfl
    rw [sigmoid_eq_rank3_first expF x cc th hlen3,
      sigmoid_eq_rank3_last expF (permCHWtoHWC x) cc th hlenp,
      toLast_expand_eq_expand_perm x d1 d2 d3 hs]
    exact squeeze_toFirst_map
      (sigmoidCore expF cc th (expandDims0 (permCHWtoHWC x))) d2 d3 d1
      (by show (1 :: (permCHWtoHWC x).shape) = _; rw [hperm]) h2 h3 h1
      astypeUint8 astypeUint8_zero DType.uint8

/-- Counterexample for C1 as stated: with a size-1 channel dimension the
restore step's `np.squeeze` removes that axis too — the unbatched result has
shape (2,2) while the batched-then-unbatched result keeps shape (2,2,1). -/
theorem sigmoid_squeeze_counterexample :
    (sigmoid_normalization (fun q => q) ⟨[2, 2, 1], DType.float64,
        [1, 2, 3, 4]⟩ 10 (1 / 8) Channels.last).shape = [2, 2]
    ∧ (removeBatch (sigmoid_normalization (fun q => q)
        (expandDims0 ⟨[2, 2, 1], DType.float64, [1, 2, 3, 4]⟩) 10 (1 / 8)
        Channels.last)).shape = [2, 2, 1]
    ∧ sigmoid_normalization (fun q => q) ⟨[2, 2, 1], DType.float64,
        [1, 2, 3, 4]⟩ 10 (1 / 8) Channels.last
      ≠ removeBatch (sigmoid_normalization (fun q => q)
        (expandDims0 ⟨[2, 2, 1], DType.float64, [1, 2, 3, 4]⟩) 10 (1 / 8)
        Channels.last) := by
  refine ⟨rfl, rfl, fun heq => ?_⟩
  exact absurd (congrArg NDArray.shape heq) (by decide)

/-- Witness for C1 (amended) on a concrete (2,2,2) image with the identity
standing in for the exponential. -/
theorem sigmoid_format_restore_witness :
    sigmoid_normalization (fun q => q) ⟨[2, 2, 2], DType.float64,
        [1, 2, 3, 4, 5, 6, 7, 8]⟩ 10 (1 / 8) Channels.last
      = removeBatch (sigmoid_normalization (fun q => q)
        (expandDims0 ⟨[2, 2, 2], DType.float64, [1, 2, 3, 4, 5, 6, 7, 8]⟩)
        10 (1 / 8) Channels.last)
    ∧ sigmoid_normalization (fun q => q) ⟨[2, 2, 2], DType.float64,
        [1, 2, 3, 4, 5, 6, 7, 8]⟩ 10 (1 / 8) Channels.first
      = permHWCtoCHW (sigmoid_normalization (fun q => q)
        (permCHWtoHWC ⟨[2, 2, 2], DType.float64, [1, 2, 3, 4, 5, 6, 7, 8]⟩)
        10 (1 / 8) Channels.last) := by
  obtain ⟨w1, -, w3⟩ := sigmoid_format_restore (fun q => q)
    ⟨[2, 2, 2], DType.float64, [1, 2, 3, 4, 5, 6, 7, 8]⟩ 10 (1 / 8)
    2 2 2 rfl (by decide) (by decide) (by decide)
  exact ⟨w1, w3⟩

/-! ### C5: inverse of mean/std normalization -/

lemma pos_of_lt_prod4 {i a b c d : ℕ} (h : i < a * b * c * d) :
    0 < a ∧ 0 < b ∧ 0 < c ∧ 0 < d := by
  refine ⟨?_, ?_, ?_, ?_⟩
  · rcases Nat.eq_zero_or_pos a with h0 | h0
    · simp [h0] at h
    · exact h0
  · rcases Nat.eq_zero_or_pos b with h0 | h0
    · simp [h0] at h
    · exact h0
  · rcases Nat.eq_zero_or_pos c with h0 | h0
    · simp [h0] at h
    · exact h0
  · rcases Nat.eq_zero_or_pos d with h0 | h0
    · simp [h0] at h
    · exact h0

lemma mkData_eq_list (n : ℕ) (f : ℕ → ℚ) (l : List ℚ) (hn : n = l.length)
    (h : ∀ i < n, f i = l.getD i 0) : mkData n f = l := by
  subst hn
  apply List.ext_getElem
  · rw [mkData_length]
  intro i h1 h2
  rw [mkData_length] at h1
  calc (mkData l.length f)[i] = (mkData l.length f).getD i 0 := by
        rw [List.getD_eq_getElem _ 0 (by rw [mkData_length]; exact h1)]
    _ = f i := mkData_getD f h1
    _ = l.getD i 0 := h i h1
    _ = l[i] := List.getD_eq_getElem l 0 h2

/-- Unfolding of `invert_mean_std_normalization` for an unbatched
channel-last input. -/
lemma invert_eq_rank3_last (x : NDArray) (mean std : List ℚ)
    (hlen : x.shape.length = 3) :
    invert_mean_std_normalization x mean std Channels.last
      = squeeze (invertCore mean std (expandDims0 x)) := by
  unfold invert_mean_std_normalization get_format_fx format_array
  simp [hlen]

/-- Unfolding of `invert_mean_std_normalization` for a batched channel-last
input. -/
lemma invert_eq_rank4_last (x : NDArray) (mean std : List ℚ)
    (hlen : x.shape.length = 4) :
    invert_mean_std_normalization x mean std Channels.last
      = invertCore mean std x := by
  unfold invert_mean_std_normalization get_format_fx format_array
  simp [hlen]

/-- Unfolding of `invert_mean_std_normalization` for an unbatched
channel-first input. -/
lemma invert_eq_rank3_first (x : NDArray) (mean std : List ℚ)
    (hlen : x.shape.length = 3) :
    invert_mean_std_normalization x mean std Channels.first
      = squeeze (einsum_bwhc_bcwh (invertCore mean std
          (einsum_bcwh_bwhc (expandDims0 x)))) := by
  unfold invert_mean_std_normalization get_format_fx format_array
  simp [hlen]

/-- Unfolding of `invert_mean_std_normalization` for a batched
channel-first input. -/
lemma invert_eq_rank4_first (x : NDArray) (mean std : List ℚ)
    (hlen : x.shape.length = 4) :
    invert_mean_std_normalization x mean std Channels.first
      = einsum_bwhc_bcwh (invertCore mean std (einsum_bcwh_bwhc x)) := by
  unfold invert_mean_std_normalization get_format_fx format_array
  simp [hlen]

/-- The channel-last cases of C5: inverting the mean/std pipeline on a
batched (B,H,W,C) array recovers it exactly; on an unbatched (H,W,C) array
with no size-1 dimension it recovers shape and data exactly. -/
theorem invert_mean_std_inverse_last (x : NDArray) (mean std : List ℚ) :
    (∀ b h w c, x.shape = [b, h, w, c] → WF x →
      (∀ j, j < c → std.getD j 0 ≠ 0) →
      (invert_mean_std_normalization
          (mean_std_normalize x mean std Channels.last) mean std
          Channels.last).shape = x.shape
        ∧ (invert_mean_std_normalization
            (mean_std_normalize x mean std Channels.last) mean std
            Channels.last).data = x.data)
    ∧ (∀ h w c, x.shape = [h, w, c] → 2 ≤ h → 2 ≤ w → 2 ≤ c → WF x →
      (∀ j, j < c → std.getD j 0 ≠ 0) →
      (invert_mean_std_normalization
          (mean_std_normalize x mean std Channels.last) mean std
          Channels.last).shape = x.shape
        ∧ (invert_mean_std_normalization
            (mean_std_normalize x mean std Channels.last) mean std
            Channels.last).data = x.data) := by
  constructor
  · intro b h w c hsx hwf hstd
    have hlen : (mean_std_normalize x mean std Channels.last).shape.length
        = 4 := by
      show x.shape.length = 4
      rw [hsx]
      rfl
    unfold WF at hwf
    have hxlen : x.data.length = b * h * w * c := by
      rw [hwf, hsx]
      simp [List.prod_cons]
      ring
    rw [invert_eq_rank4_last _ mean std hlen]
    refine ⟨rfl, ?_⟩
    show mkData (mean_std_normalize x mean std Channels.last).data.length _
      = x.data
    have hNlen : (mean_std_normalize x mean std Channels.last).data.length
        = x.data.length := mkData_length _ _
    apply mkData_eq_list _ _ _ hNlen
    intro i hi
    rw [hNlen] at hi
    obtain ⟨-, -, -, hc⟩ := pos_of_lt_prod4 (hxlen ▸ hi)
    have hL : (mean_std_normalize x mean std Channels.last).shape.getLastD 1
        = c := by
      show x.shape.getLastD 1 = c
      rw [hsx]
      rfl
    have hch : channelIndex x.shape Channels.last i = i % c := by
      show i % x.shape.getLastD 1 = i % c
      rw [hsx]
      rfl
    have hσ : std.getD (i % c) 0 ≠ 0 := hstd _ (Nat.mod_lt i hc)
    show (mean_std_normalize x mean std Channels.last).data.getD i 0
        * std.getD (i % (mean_std_normalize x mean std
            Channels.last).shape.getLastD 1) 0
        + mean.getD (i % (mean_std_normalize x mean std
            Channels.last).shape.getLastD 1) 0
      = x.data.getD i 0
    rw [hL]
    have hNd : (mean_std_normalize x mean std Channels.last).data.getD i 0
        = (x.data.getD i 0 - mean.getD (i % c) 0) / std.getD (i % c) 0 := by
      show (mkData x.data.length _).getD i 0 = _
      rw [mkData_getD _ hi]
      show (x.data.getD i 0
          - mean.getD (channelIndex x.shape Channels.last i) 0)
        / std.getD (channelIndex x.shape Channels.last i) 0 = _
      rw [hch]
    rw [hNd, div_mul_cancel₀ _ hσ, sub_add_cancel]
  · intro h w c hsx hh hw hc2 hwf hstd
    have hlen : (mean_std_normalize x mean std Channels.last).shape.length
        = 3 := by
      show x.shape.length = 3
      rw [hsx]
      rfl
    unfold WF at hwf
    have hxlen : x.data.length = h * w * c := by
      rw [hwf, hsx]
      simp [List.prod_cons]
      ring
    rw [invert_eq_rank3_last _ mean std hlen]
    constructor
    · show ((expandDims0 (mean_std_normalize x mean std
          Channels.last)).shape).filter (fun d => d ≠ 1) = x.shape
      show ((1 : ℕ) :: x.shape).filter (fun d => d ≠ 1) = x.shape
      rw [hsx]
      exact filter_batch h w c hh hw hc2
    · show mkData (expandDims0 (mean_std_normalize x mean std
          Channels.last)).data.length _ = x.data
      have hNlen : (expandDims0 (mean_std_normalize x mean std
          Channels.last)).data.length = x.data.length := mkData_length _ _
      apply mkData_eq_list _ _ _ hNlen
      intro i hi
      rw [hNlen] at hi
      have hc : 0 < c := by
        omega
      have hL : (expandDims0 (mean_std_normalize x mean std
          Channels.last)).shape.getLastD 1 = c := by
        show ((1 : ℕ) :: x.shape).getLastD 1 = c
        rw [hsx]
        rfl
      have hch : channelIndex x.shape Channels.last i = i % c := by
        show i % x.shape.getLastD 1 = i % c
        rw [hsx]
        rfl
      have hσ : std.getD (i % c) 0 ≠ 0 := hstd _ (Nat.mod_lt i hc)
      show (expandDims0 (mean_std_normalize x mean std
            Channels.last)).data.getD i 0
          * std.getD (i % (expandDims0 (mean_std_normalize x mean std
              Channels.last)).shape.getLastD 1) 0
          + mean.getD (i % (expandDims0 (mean_std_normalize x mean std
              Channels.last)).shape.getLastD 1) 0
        = x.data.getD i 0
      rw [hL]
      have hNd : (expandDims0 (mean_std_normalize x mean std
            Channels.last)).data.getD i 0
          = (x.data.getD i 0 - mean.getD (i % c) 0)
            / std.getD (i % c) 0 := by
        show (mkData x.data.length _).getD i 0 = _
        rw [mkData_getD _ hi]
        show (x.data.getD i 0
            - mean.getD (channelIndex x.shape Channels.last i) 0)
          / std.getD (channelIndex x.shape Channels.last i) 0 = _
        rw [hch]
      rw [hNd, div_mul_cancel₀ _ hσ, sub_add_cancel]

lemma first_m_lt {i b c h w : ℕ} (hi : i < b * c * h * w) :
    ((i / w / h / c * h + i / w % h) * w + i % w) * c + i / w / h % c
      < b * h * w * c := by
  obtain ⟨hb, hc, hh, hw⟩ := pos_of_lt_prod4 hi
  have hq : i / w / h / c < b := div3_lt hi
  have hr1 : i / w % h < h := Nat.mod_lt _ hh
  have hr2 : i % w < w := Nat.mod_lt _ hw
  have hB : i / w / h % c < c := Nat.mod_lt _ hc
  exact enc_lt (enc_lt (enc_lt hq hr1) hr2) hB

lemma first_m_recover {i b c h w : ℕ} (hi : i < b * c * h * w) :
    (((((i / w / h / c * h + i / w % h) * w + i % w) * c + i / w / h % c)
          / c / w / h * c
        + (((i / w / h / c * h + i / w % h) * w + i % w) * c
            + i / w / h % c) % c) * h
      + (((i / w / h / c * h + i / w % h) * w + i % w) * c + i / w / h % c)
          / c / w % h) * w
    + (((i / w / h / c * h + i / w % h) * w + i % w) * c + i / w / h % c)
        / c % w = i := by
  obtain ⟨hb, hc, hh, hw⟩ := pos_of_lt_prod4 hi
  have hB : i / w / h % c < c := Nat.mod_lt _ hc
  have hr1 : i / w % h < h := Nat.mod_lt _ hh
  have hr2 : i % w < w := Nat.mod_lt _ hw
  rw [enc_div _ hB, enc_mod _ hB, enc_div _ hr2, enc_mod _ hr2,
    enc_div _ hr1, enc_mod _ hr1, Nat.div_add_mod', Nat.div_add_mod',
    Nat.div_add_mod']

lemma invertCore_eq (mean std : List ℚ) (a : NDArray) (s : List ℕ) (d : ℕ)
    (hs : a.shape = s) (hd : s.getLastD 1 = d) :
    invertCore mean std a = ⟨s, DType.float64,
      mkData a.data.length (fun n =>
        a.data.getD n 0 * std.getD (n % d) 0 + mean.getD (n % d) 0)⟩ := by
  unfold invertCore
  rw [hs, hd]

/-- The channel-first broadcast of `invert_mean_std_normalization`: going to
the canonical channel-last layout, multiplying/adding per channel, and
permuting back is the per-channel elementwise map in the original layout
(the channel of flat index `i` in a (B,C,H,W) array is `i / w / h % c`). -/
lemma toFirst_invertCore_toLast (P : NDArray) (mean std : List ℚ)
    (b c h w : ℕ) (hP : P.shape = [b, c, h, w]) :
    einsum_bwhc_bcwh (invertCore mean std (einsum_bcwh_bwhc P))
      = ⟨[b, c, h, w], DType.float64,
          mkData (b * c * h * w) (fun i =>
            P.data.getD i 0 * std.getD (i / w / h % c) 0
              + mean.getD (i / w / h % c) 0)⟩ := by
  rw [bcwh_bwhc_eq P b c h w hP]
  rw [invertCore_eq mean std _ [b, h, w, c] c rfl rfl]
  rw [bwhc_bcwh_eq _ b h w c rfl]
  apply ext_data
  · rfl
  · rfl
  show mkData (b * c * h * w) _ = mkData (b * c * h * w) _
  apply mkData_ext rfl
  intro i hi
  obtain ⟨hb, hc, hh, hw⟩ := pos_of_lt_prod4 hi
  have hB : i / w / h % c < c := Nat.mod_lt _ hc
  simp only [mkData_length]
  rw [mkData_getD _ (first_m_lt hi)]
  rw [mkData_getD _ (first_m_lt hi)]
  rw [first_m_recover hi]
  rw [enc_mod _ hB]

/-- The channel-first cases of C5. -/
theorem invert_mean_std_inverse_first (x : NDArray) (mean std : List ℚ) :
    (∀ b c h w, x.shape = [b, c, h, w] → WF x →
      (∀ j, j < c → std.getD j 0 ≠ 0) →
      (invert_mean_std_normalization
          (mean_std_normalize x mean std Channels.first) mean std
          Channels.first).shape = x.shape
        ∧ (invert_mean_std_normalization
            (mean_std_normalize x mean std Channels.first) mean std
            Channels.first).data = x.data)
    ∧ (∀ c h w, x.shape = [c, h, w] → 2 ≤ c → 2 ≤ h → 2 ≤ w → WF x →
      (∀ j, j < c → std.getD j 0 ≠ 0) →
      (invert_mean_std_normalization
          (mean_std_normalize x mean std Channels.first) mean std
          Channels.first).shape = x.shape
        ∧ (invert_mean_std_normalization
            (mean_std_normalize x mean std Channels.first) mean std
            Channels.first).data = x.data) := by
  constructor
  · intro b c h w hsx hwf hstd
    have hlen : (mean_std_normalize x mean std Channels.first).shape.length
        = 4 := by
      show x.shape.length = 4
      rw [hsx]
      rfl
    unfold WF at hwf
    have hxlen : x.data.length = b * c * h * w := by
      rw [hwf, hsx]
      simp [List.prod_cons]
      ring
    rw [invert_eq_rank4_first _ mean std hlen]
    rw [toFirst_invertCore_toLast _ mean std b c h w (by
      show x.shape = [b, c, h, w]
      exact hsx)]
    constructor
    · show [b, c, h, w] = x.shape
      rw [hsx]
    · show mkData (b * c * h * w) _ = x.data
      apply mkData_eq_list _ _ _ hxlen.symm
      intro i hi
      obtain ⟨hb, hc, hh, hw⟩ := pos_of_lt_prod4 hi
      have hB : i / w / h % c < c := Nat.mod_lt _ hc
      have hσ : std.getD (i / w / h % c) 0 ≠ 0 := hstd _ hB
      have hch : channelIndex x.shape Channels.first i = i / w / h % c := by
        rw [hsx]
        rfl
      have hNd : (mean_std_normalize x mean std Channels.first).data.getD i 0
          = (x.data.getD i 0 - mean.getD (i / w / h % c) 0)
            / std.getD (i / w / h % c) 0 := by
        show (mkData x.data.length _).getD i 0 = _
        rw [mkData_getD _ (by rw [hxlen]; exact hi)]
        show (x.data.getD i 0
            - mean.getD (channelIndex x.shape Channels.first i) 0)
          / std.getD (channelIndex x.shape Channels.first i) 0 = _
        rw [hch]
      rw [hNd, div_mul_cancel₀ _ hσ, sub_add_cancel]
  · intro c h w hsx hc2 hh2 hw2 hwf hstd
    have hlen : (mean_std_normalize x mean std Channels.first).shape.length
        = 3 := by
      show x.shape.length = 3
      rw [hsx]
      rfl
    unfold WF at hwf
    have hxlen : x.data.length = c * h * w := by
      rw [hwf, hsx]
      simp [List.prod_cons]
      ring
    rw [invert_eq_rank3_first _ mean std hlen]
    rw [toFirst_invertCore_toLast _ mean std 1 c h w (by
      show (1 :: x.shape) = [1, c, h, w]
      rw [hsx])]
    constructor
    · show ([1, c, h, w] : List ℕ).filter (fun d => d ≠ 1) = x.shape
      rw [hsx]
      exact filter_batch c h w hc2 hh2 hw2
    · show mkData (1 * c * h * w) _ = x.data
      apply mkData_eq_list _ _ _ (by rw [hxlen]; ring)
      intro i hi
      have hi2 : i < c * h * w := by
        have : 1 * c * h * w = c * h * w := by ring
        rw [this] at hi
        exact hi
      obtain ⟨hc, hh, hw, -⟩ := pos_of_lt_prod4 (show i < c * h * w * 1 by
        rw [show c * h * w * 1 = c * h * w by ring]; exact hi2)
      have hdiv : i / w / h < c := div2_lt hi2
      have hσ : std.getD (i / w / h % c) 0 ≠ 0 :=
        hstd _ (Nat.mod_lt _ hc)
      have hch : channelIndex x.shape Channels.first i = i / w / h := by
        rw [hsx]
        rfl
      have hNd : (expandDims0 (mean_std_normalize x mean std
            Channels.first)).data.getD i 0
          = (x.data.getD i 0 - mean.getD (i / w / h) 0)
            / std.getD (i / w / h) 0 := by
        show (mkData x.data.length _).getD i 0 = _
        rw [mkData_getD _ (by rw [hxlen]; exact hi2)]
        show (x.data.getD i 0
            - mean.getD (channelIndex x.shape Channels.first i) 0)
          / std.getD (channelIndex x.shape Channels.first i) 0 = _
        rw [hch]
      rw [Nat.mod_eq_of_lt hdiv] at hσ
      show (expandDims0 (mean_std_normalize x mean std
          Channels.first)).data.getD i 0
          * std.getD (i / w / h % c) 0 + mean.getD (i / w / h % c) 0
        = x.data.getD i 0
      rw [Nat.mod_eq_of_lt hdiv, hNd, div_mul_cancel₀ _ hσ, sub_add_cancel]

/-- C5 (amended): `invert_mean_std_normalization` applied to
`(x - mean) / std` (per channel, nonzero std) recovers x exactly — shape and
data — for batched rank-4 arrays in both layouts, and for unbatched rank-3
arrays with no size-1 dimension in both layouts. (A rank-3 array with a
size-1 dimension loses that axis to `np.squeeze` on restore; see the
counterexample.) -/
theorem invert_mean_std_inverse (x : NDArray) (mean std : List ℚ) :
    (∀ b h w c, x.shape = [b, h, w, c] → WF x →
      (∀ j, j < c → std.getD j 0 ≠ 0) →
      (invert_mean_std_normalization
          (mean_std_normalize x mean std Channels.last) mean std
          Channels.last).shape = x.shape
        ∧ (invert_mean_std_normalization
            (mean_std_normalize x mean std Channels.last) mean std
            Channels.last).data = x.data)
    ∧ (∀ b c h w, x.shape = [b, c, h, w] → WF x →
      (∀ j, j < c → std.getD j 0 ≠ 0) →
      (invert_mean_std_normalization
          (mean_std_normalize x mean std Channels.first) mean std
          Channels.first).shape = x.shape
        ∧ (invert_mean_std_normalization
            (mean_std_normalize x mean std Channels.first) mean std
            Channels.first).data = x.data)
    ∧ (∀ h w c, x.shape = [h, w, c] → 2 ≤ h → 2 ≤ w → 2 ≤ c → WF x →
      (∀ j, j < c → std.getD j 0 ≠ 0) →
      (invert_mean_std_normalization
          (mean_std_normalize x mean std Channels.last) mean std
          Channels.last).shape = x.shape
        ∧ (invert_mean_std_normalization
            (mean_std_normalize x mean std Channels.last) mean std
            Channels.last).data = x.data)
    ∧ (∀ c h w, x.shape = [c, h, w] → 2 ≤ c → 2 ≤ h → 2 ≤ w → WF x →
      (∀ j, j < c → std.getD j 0 ≠ 0) →
      (invert_mean_std_normalization
          (mean_std_normalize x mean std Channels.first) mean std
          Channels.first).shape = x.shape
        ∧ (invert_mean_std_normalization
            (mean_std_normalize x mean std Channels.first) mean std
            Channels.first).data = x.data) :=
  ⟨(invert_mean_std_inverse_last x mean std).1,
   (invert_mean_std_inverse_first x mean std).1,
   (invert_mean_std_inverse_last x mean std).2,
   (invert_mean_std_inverse_first x mean std).2⟩

/-- Counterexample for C5 as stated: on a (2,2,1) channel-last array the
inverse pipeline returns a (2,2) array, not the original (2,2,1) one. -/
theorem invert_mean_std_squeeze_counterexample :
    (invert_mean_std_normalization
        (mean_std_normalize ⟨[2, 2, 1], DType.float64, [1, 2, 3, 4]⟩
          [0] [1] Channels.last) [0] [1] Channels.last).shape = [2, 2]
    ∧ (⟨[2, 2, 1], DType.float64, [1, 2, 3, 4]⟩ : NDArray).shape = [2, 2, 1]
    ∧ invert_mean_std_normalization
        (mean_std_normalize ⟨[2, 2, 1], DType.float64, [1, 2, 3, 4]⟩
          [0] [1] Channels.last) [0] [1] Channels.last
      ≠ ⟨[2, 2, 1], DType.float64, [1, 2, 3, 4]⟩ := by
  refine ⟨rfl, rfl, fun heq => ?_⟩
  exact absurd (congrArg NDArray.shape heq) (by decide)

/-- Witness for C5 (amended) on concrete (1,2,2,2) and (2,2,2) arrays in
both layouts with mean [3,5] and std [2,4]. -/
theorem invert_mean_std_inverse_witness :
    ((invert_mean_std_normalization
        (mean_std_normalize ⟨[1, 2, 2, 2], DType.float64,
          [1, 2, 3, 4, 5, 6, 7, 8]⟩ [3, 5] [2, 4] Channels.last)
        [3, 5] [2, 4] Channels.last).shape = [1, 2, 2, 2]
      ∧ (invert_mean_std_normalization
        (mean_std_normalize ⟨[1, 2, 2, 2], DType.float64,
          [1, 2, 3, 4, 5, 6, 7, 8]⟩ [3, 5] [2, 4] Channels.last)
        [3, 5] [2, 4] Channels.last).data = [1, 2, 3, 4, 5, 6, 7, 8])
    ∧ ((invert_mean_std_normalization
        (mean_std_normalize ⟨[2, 2, 2], DType.float64,
          [1, 2, 3, 4, 5, 6, 7, 8]⟩ [3, 5] [2, 4] Channels.first)
        [3, 5] [2, 4] Channels.first).shape = [2, 2, 2]
      ∧ (invert_mean_std_normalization
        (mean_std_normalize ⟨[2, 2, 2], DType.float64,
          [1, 2, 3, 4, 5, 6, 7, 8]⟩ [3, 5] [2, 4] Channels.first)
        [3, 5] [2, 4] Channels.first).data = [1, 2, 3, 4, 5, 6, 7, 8]) := by
  constructor
  · exact (invert_mean_std_inverse ⟨[1, 2, 2, 2], DType.float64,
      [1, 2, 3, 4, 5, 6, 7, 8]⟩ [3, 5] [2, 4]).1 1 2 2 2 rfl (by decide)
      (by decide)
  · exact (invert_mean_std_inverse ⟨[2, 2, 2], DType.float64,
      [1, 2, 3, 4, 5, 6, 7, 8]⟩ [3, 5] [2, 4]).2.2.2 2 2 2 rfl (by decide)
      (by decide) (by decide) (by decide) (by decide)

end ImageTiles
